import Mathlib

/-!
# Verification of the SneakPeak catalog search & ranking engine

Shallow embedding of `src/main.py` (functions `load_mock`, `filter_sneakers`,
`trending`, and the lookup loop of `sneaker_detail`).

Modelling choices:
* Python strings are modelled as lists of Unicode code points (`List Nat`);
  Python's `str.lower()` / `str.upper()` are modelled on the ASCII letter
  ranges, `in` (substring) as `containsSub`, and `<` on strings as
  code-point lexicographic order `lexLt`.
* Python floats (prices) are modelled as rationals (`ℚ`).
* A sneaker record is modelled with the fields the engine reads.  Fields the
  code reads with a default (`brand`, `model`, `colorway`, `tags`) are total,
  the default standing for absence; fields whose absence the code
  distinguishes (`releaseDate`, `stockx.lastSale`) are `Option`s.
* Optional query criteria are `Option`s; Python truthiness of a string
  criterion (`if q:`) is the `some`-and-nonempty test.
* The I/O of `load_mock` (file read + JSON parse) is modelled by an explicit
  outcome value of type `Except String (List Sneaker)`.
-/

/-- A Python string as its list of Unicode code points. -/
abbrev Str := List Nat

/-- `str.lower()` on one code point (ASCII letter range, as exercised here). -/
def lowerChar (c : Nat) : Nat := if 65 ≤ c ∧ c ≤ 90 then c + 32 else c

/-- `str.upper()` on one code point (ASCII letter range, as exercised here). -/
def upperChar (c : Nat) : Nat := if 97 ≤ c ∧ c ≤ 122 then c - 32 else c

/-- Python `s.lower()`. -/
def lowerStr (s : Str) : Str := s.map lowerChar

/-- Python `s.upper()`. -/
def upperStr (s : Str) : Str := s.map upperChar

/-- Python `needle in hay` (substring containment). -/
def containsSub : Str → Str → Bool
  | hay, needle =>
    needle.isPrefixOf hay ||
      match hay with
      | [] => false
      | _ :: t => containsSub t needle

/-- Python `s < t` on strings: code-point lexicographic strict order. -/
def lexLt : Str → Str → Bool
  | [], [] => false
  | [], _ :: _ => true
  | _ :: _, [] => false
  | a :: as, b :: bs => a < b || (a == b && lexLt as bs)

/-- Python `s <= t` on strings: code-point lexicographic order. -/
def lexLe : Str → Str → Bool
  | [], _ => true
  | _ :: _, [] => false
  | a :: as, b :: bs => a < b || (a == b && lexLe as bs)

/-- One catalog record (`SneakerRecord`), with the fields the engine reads.
`lastSale` embeds the nested `stockx.lastSale` of the JSON records. -/
structure Sneaker where
  id : Str
  brand : Str
  model : Str
  colorway : Str
  releaseDate : Option Str
  tags : List Str
  lastSale : Option ℚ
deriving DecidableEq

/-- The code points of the literal `"trending"`. -/
def trendingTag : Str := [116, 114, 101, 110, 100, 105, 110, 103]

/-- `"trending" in d.get("tags", [])`. -/
def isTagged (d : Sneaker) : Bool := d.tags.contains trendingTag

/-- The lowered search text
`(it.get("brand","") + " " + it.get("model","") + " " + it.get("colorway","")).lower()`. -/
def searchText (it : Sneaker) : Str :=
  lowerStr (it.brand ++ [32] ++ it.model ++ [32] ++ it.colorway)

/-- `if q and q.lower() not in text: ok = False` — the record survives the
`q` criterion. -/
def okQ (it : Sneaker) : Option Str → Bool
  | none => true
  | some s => s.isEmpty || containsSub (searchText it) (lowerStr s)

/-- `if brand and it.get("brand","").lower() != brand.lower(): ok = False`. -/
def okBrand (it : Sneaker) : Option Str → Bool
  | none => true
  | some s => s.isEmpty || (lowerStr it.brand == lowerStr s)

/-- `if model and model.lower() not in it.get("model","").lower(): ok = False`. -/
def okModel (it : Sneaker) : Option Str → Bool
  | none => true
  | some s => s.isEmpty || containsSub (lowerStr it.model) (lowerStr s)

/-- `if min_price is not None and (last_sale is None or last_sale < min_price): ok = False`. -/
def okMin (it : Sneaker) : Option ℚ → Bool
  | none => true
  | some p =>
    match it.lastSale with
    | none => false
    | some v => !(decide (v < p))

/-- `if max_price is not None and (last_sale is None or last_sale > max_price): ok = False`. -/
def okMax (it : Sneaker) : Option ℚ → Bool
  | none => true
  | some p =>
    match it.lastSale with
    | none => false
    | some v => !(decide (v > p))

/-- `if release_from and (rd is None or rd < release_from): ok = False`. -/
def okFrom (it : Sneaker) : Option Str → Bool
  | none => true
  | some s =>
    s.isEmpty ||
      match it.releaseDate with
      | none => false
      | some rd => !(lexLt rd s)

/-- `if release_to and (rd is None or rd > release_to): ok = False`. -/
def okTo (it : Sneaker) : Option Str → Bool
  | none => true
  | some s =>
    s.isEmpty ||
      match it.releaseDate with
      | none => false
      | some rd => !(lexLt s rd)

/-- The conjunction of the seven criterion checks of the loop body of
`filter_sneakers`: `ok` stays `True` for record `it`. -/
def passesFilter (it : Sneaker) (q brand model : Option Str)
    (min_price max_price : Option ℚ) (release_from release_to : Option Str) : Bool :=
  okQ it q && okBrand it brand && okModel it model &&
    okMin it min_price && okMax it max_price &&
    okFrom it release_from && okTo it release_to

/-- `filter_sneakers(items, q, brand, model, min_price, max_price,
release_from, release_to)`: the loop appends exactly the records whose `ok`
stays `True`, in order. -/
def filter_sneakers (items : List Sneaker) (q brand model : Option Str)
    (min_price max_price : Option ℚ) (release_from release_to : Option Str) :
    List Sneaker :=
  items.filter
    (fun it => passesFilter it q brand model min_price max_price release_from release_to)

/-- `x.get("stockx", {}).get("lastSale", 0)` — the sort key of `trending`. -/
def sortKey (x : Sneaker) : ℚ := x.lastSale.getD 0

/-- The ordering used by `sorted(..., reverse=True)`: `a` may come before `b`
iff `a`'s key is at least `b`'s. -/
def byKeyDesc (a b : Sneaker) : Prop := sortKey b ≤ sortKey a

instance : DecidableRel byKeyDesc := fun a b =>
  inferInstanceAs (Decidable (sortKey b ≤ sortKey a))

instance : IsTotal Sneaker byKeyDesc :=
  ⟨fun a b => le_total (sortKey b) (sortKey a)⟩

instance : IsTrans Sneaker byKeyDesc :=
  ⟨fun _ _ _ hab hbc => le_trans hbc hab⟩

/-- `sorted(data, key=lambda x: ..., reverse=True)`: a stable sort
descending by `sortKey` (Python's `sorted` is stable, and `reverse=True`
keeps equal keys in original order, which insertion sort by `byKeyDesc`
reproduces). -/
def sortDesc (data : List Sneaker) : List Sneaker :=
  data.insertionSort byKeyDesc

/-- The fill loop of `trending`:
`for item in remaining: if item["id"] not in ids: tagged.append(item); if len(tagged) >= limit: break`.
Note `ids` is never extended inside the loop. -/
def fill (limit : Nat) (ids : List Str) : List Sneaker → List Sneaker → List Sneaker
  | acc, [] => acc
  | acc, item :: rest =>
    let acc2 := if ids.contains item.id then acc else acc ++ [item]
    if limit ≤ acc2.length then acc2 else fill limit ids acc2 rest

/-- `trending(limit)` over a loaded catalog `data`. -/
def trending (data : List Sneaker) (limit : Nat) : List Sneaker :=
  let tagged := data.filter isTagged
  (if tagged.length < limit then
    fill limit (tagged.map Sneaker.id) tagged (sortDesc data)
  else tagged).take limit

/-- The lookup loop of `sneaker_detail`: first record with matching `id`,
`none` standing for the raised 404 (`NotFound`). -/
def findById : List Sneaker → Str → Option Sneaker
  | [], _ => none
  | s :: rest, sid => if s.id = sid then some s else findById rest sid

/-- `load_mock()`: the `try` body's outcome (read + parse) is passed in as an
`Except` value; the `except Exception: return []` arm maps every error to the
empty list. -/
def load_mock (outcome : Except String (List Sneaker)) : List Sneaker :=
  match outcome with
  | .ok data => data
  | .error _ => []

/-- The three-record example catalog of the specification:
`[{id:"a",tags:[],lastSale:100}, {id:"b",tags:["trending"],lastSale:50}, {id:"c",tags:[],lastSale:200}]`. -/
def exA : Sneaker := ⟨[97], [], [], [], none, [], some 100⟩

/-- Second example record (`"b"`, tagged trending, lastSale 50). -/
def exB : Sneaker := ⟨[98], [], [], [], none, [trendingTag], some 50⟩

/-- Third example record (`"c"`, untagged, lastSale 200). -/
def exC : Sneaker := ⟨[99], [], [], [], none, [], some 200⟩

/-- The example catalog `[a, b, c]`. -/
def exampleCatalog : List Sneaker := [exA, exB, exC]

/-! ## Helper lemmas -/

/-- `lexLt a b = false` exactly when `b ≤ a` in the lexicographic order:
the order is total. -/
theorem lexLt_eq_false_iff : ∀ a b : Str, lexLt a b = false ↔ lexLe b a = true
  | [], [] => by simp [lexLt, lexLe]
  | [], _ :: _ => by simp [lexLt, lexLe]
  | _ :: _, [] => by simp [lexLt, lexLe]
  | x :: xs, y :: ys => by
    have ih := lexLt_eq_false_iff xs ys
    simp only [lexLt, lexLe, Bool.or_eq_false_iff, Bool.or_eq_true,
      Bool.and_eq_false_iff, Bool.and_eq_true, decide_eq_false_iff_not,
      decide_eq_true_eq, beq_iff_eq, beq_eq_false_iff_ne, ne_eq, ih]
    constructor
    · rintro ⟨h1, h2 | h2⟩
      · left; omega
      · rcases Nat.lt_trichotomy x y with h | h | h
        · exact absurd h h1
        · right; exact ⟨h.symm, h2⟩
        · left; exact h
    · rintro (h | ⟨h1, h2⟩)
      · exact ⟨by omega, Or.inl (by omega)⟩
      · exact ⟨by omega, Or.inr h2⟩

/-- Membership in the output of `filter_sneakers` unfolded. -/
theorem mem_filter_sneakers {items : List Sneaker} {q brand model : Option Str}
    {mn mx : Option ℚ} {rf rt : Option Str} {r : Sneaker} :
    r ∈ filter_sneakers items q brand model mn mx rf rt ↔
      r ∈ items ∧ passesFilter r q brand model mn mx rf rt = true :=
  List.mem_filter

/-- A record passing the filter with `min_price = some p` has a present
`lastSale` that is at least `p`. -/
theorem passes_minPrice {r : Sneaker} {q b m : Option Str} {p : ℚ} {mx : Option ℚ}
    {rf rt : Option Str} (h : passesFilter r q b m (some p) mx rf rt = true) :
    ∃ v, r.lastSale = some v ∧ p ≤ v := by
  simp only [passesFilter, Bool.and_eq_true] at h
  have hmin := h.1.1.1.2
  cases hls : r.lastSale with
  | none => simp [okMin, hls] at hmin
  | some v =>
    refine ⟨v, rfl, ?_⟩
    simp only [okMin, hls, Bool.not_eq_true', decide_eq_false_iff_not, not_lt] at hmin
    exact hmin

/-- A record passing the filter with `max_price = some p` has a present
`lastSale` that is at most `p`. -/
theorem passes_maxPrice {r : Sneaker} {q b m : Option Str} {p : ℚ} {mn : Option ℚ}
    {rf rt : Option Str} (h : passesFilter r q b m mn (some p) rf rt = true) :
    ∃ v, r.lastSale = some v ∧ v ≤ p := by
  simp only [passesFilter, Bool.and_eq_true] at h
  have hmax := h.1.1.2
  cases hls : r.lastSale with
  | none => simp [okMax, hls] at hmax
  | some v =>
    refine ⟨v, rfl, ?_⟩
    simp only [okMax, hls, Bool.not_eq_true', decide_eq_false_iff_not, not_lt] at hmax
    exact hmax

/-- A record passing the filter with a nonempty `release_from = some s` has a
present `releaseDate` lexicographically at least `s`. -/
theorem passes_releaseFrom {r : Sneaker} {q b m : Option Str} {mn mx : Option ℚ}
    {s : Str} {rt : Option Str} (hs : s ≠ [])
    (h : passesFilter r q b m mn mx (some s) rt = true) :
    ∃ d, r.releaseDate = some d ∧ lexLe s d = true := by
  simp only [passesFilter, Bool.and_eq_true] at h
  have hfrom := h.1.2
  cases hrd : r.releaseDate with
  | none => simp [okFrom, hrd, hs] at hfrom
  | some d =>
    refine ⟨d, rfl, ?_⟩
    simp only [okFrom, hrd, Bool.or_eq_true] at hfrom
    rcases hfrom with he | hlt
    · exact absurd (List.isEmpty_eq_true.mp he) hs
    · exact (lexLt_eq_false_iff d s).mp (by simpa using hlt)

/-- A record passing the filter with a nonempty `release_to = some s` has a
present `releaseDate` lexicographically at most `s`. -/
theorem passes_releaseTo {r : Sneaker} {q b m : Option Str} {mn mx : Option ℚ}
    {s : Str} {rf : Option Str} (hs : s ≠ [])
    (h : passesFilter r q b m mn mx rf (some s) = true) :
    ∃ d, r.releaseDate = some d ∧ lexLe d s = true := by
  simp only [passesFilter, Bool.and_eq_true] at h
  have hto := h.2
  cases hrd : r.releaseDate with
  | none => simp [okTo, hrd, hs] at hto
  | some d =>
    refine ⟨d, rfl, ?_⟩
    simp only [okTo, hrd, Bool.or_eq_true] at hto
    rcases hto with he | hlt
    · exact absurd (List.isEmpty_eq_true.mp he) hs
    · exact (lexLt_eq_false_iff s d).mp (by simpa using hlt)

/-! ## Claim theorems -/

/-- C6: for every record sequence and every combination of supplied criteria,
the output of `filter_sneakers` is a subsequence of the input: every output
record occurs in the input, nothing is duplicated or reordered, and relative
order is preserved. -/
theorem filter_output_sublist (items : List Sneaker) (q brand model : Option Str)
    (mn mx : Option ℚ) (rf rt : Option Str) :
    (filter_sneakers items q brand model mn mx rf rt).Sublist items :=
  List.filter_sublist items

/-- C5: every record in the output of `filter_sneakers` with
`min_price = some p` has a present `lastSale ≥ p`, and every record in the
output with `max_price = some p` has a present `lastSale ≤ p`; a record with
absent `lastSale` never appears when either bound is supplied. -/
theorem price_bounds (items : List Sneaker) (q brand model : Option Str)
    (p : ℚ) (rf rt : Option Str) :
    (∀ mx r, r ∈ filter_sneakers items q brand model (some p) mx rf rt →
      ∃ v, r.lastSale = some v ∧ p ≤ v) ∧
    (∀ mn r, r ∈ filter_sneakers items q brand model mn (some p) rf rt →
      ∃ v, r.lastSale = some v ∧ v ≤ p) := by
  constructor
  · intro mx r hr
    exact passes_minPrice (mem_filter_sneakers.mp hr).2
  · intro mn r hr
    exact passes_maxPrice (mem_filter_sneakers.mp hr).2

/-- Witness for C5 at a concrete input: record `c` (lastSale 200) survives
`min_price = 150` and its price is present and at least 150. -/
theorem price_bounds_witness :
    ∃ v, exC.lastSale = some v ∧ (150 : ℚ) ≤ v :=
  (price_bounds exampleCatalog none none none 150 none none).1 none exC (by decide)

/-- C2: whenever a (supplied, hence nonempty — Python truthiness) `release_from`
criterion is given, every output record has a present `releaseDate`
lexicographically `≥ release_from`; symmetrically for `release_to`. -/
theorem release_window_bounds (items : List Sneaker) (q brand model : Option Str)
    (mn mx : Option ℚ) :
    (∀ s rt r, s ≠ [] →
      r ∈ filter_sneakers items q brand model mn mx (some s) rt →
      ∃ d, r.releaseDate = some d ∧ lexLe s d = true) ∧
    (∀ s rf r, s ≠ [] →
      r ∈ filter_sneakers items q brand model mn mx rf (some s) →
      ∃ d, r.releaseDate = some d ∧ lexLe d s = true) := by
  constructor
  · intro s rt r hs hr
    exact passes_releaseFrom hs (mem_filter_sneakers.mp hr).2
  · intro s rf r hs hr
    exact passes_releaseTo hs (mem_filter_sneakers.mp hr).2

/-- A record with release date `"2020-05-01"` (code points). -/
def exDated : Sneaker :=
  ⟨[100], [], [], [],
    some [50, 48, 50, 48, 45, 48, 53, 45, 48, 49], [], none⟩

/-- Witness for C2 at a concrete input: with `release_from = "2020"`,
the dated record survives and its release date is present and `≥ "2020"`. -/
theorem release_window_bounds_witness :
    ([50, 48, 50, 48] : Str) ≠ [] ∧
      ∃ d, exDated.releaseDate = some d ∧ lexLe [50, 48, 50, 48] d = true :=
  ⟨by decide,
    (release_window_bounds [exDated] none none none none none).1
      [50, 48, 50, 48] none exDated (by decide) (by decide)⟩

/-- C3: an empty-string value for `q`, `brand`, `model`, `release_from` or
`release_to` is falsy and behaves exactly as an absent criterion (in
particular `release_from = ""` does not exclude records without a
`releaseDate`), whereas `min_price = 0` / `max_price = 0` is a real bound
that still excludes every record whose `lastSale` is absent. -/
theorem empty_string_vs_zero_price :
    (∀ items brand model mn mx rf rt, filter_sneakers items (some []) brand model mn mx rf rt =
      filter_sneakers items none brand model mn mx rf rt) ∧
    (∀ items q model mn mx rf rt, filter_sneakers items q (some []) model mn mx rf rt =
      filter_sneakers items q none model mn mx rf rt) ∧
    (∀ items q brand mn mx rf rt, filter_sneakers items q brand (some []) mn mx rf rt =
      filter_sneakers items q brand none mn mx rf rt) ∧
    (∀ items q brand model mn mx rt, filter_sneakers items q brand model mn mx (some []) rt =
      filter_sneakers items q brand model mn mx none rt) ∧
    (∀ items q brand model mn mx rf, filter_sneakers items q brand model mn mx rf (some []) =
      filter_sneakers items q brand model mn mx rf none) ∧
    (∀ items q brand model mx rf rt r,
      r ∈ filter_sneakers items q brand model (some 0) mx rf rt →
      ∃ v, r.lastSale = some v ∧ 0 ≤ v) ∧
    (∀ items q brand model mn rf rt r,
      r ∈ filter_sneakers items q brand model mn (some 0) rf rt →
      ∃ v, r.lastSale = some v ∧ v ≤ 0) := by
  refine ⟨fun _ _ _ _ _ _ _ => rfl, fun _ _ _ _ _ _ _ => rfl,
    fun _ _ _ _ _ _ _ => rfl, fun _ _ _ _ _ _ _ => rfl,
    fun _ _ _ _ _ _ _ => rfl, ?_, ?_⟩
  · intro items q brand model mx rf rt r hr
    exact passes_minPrice (mem_filter_sneakers.mp hr).2
  · intro items q brand model mn rf rt r hr
    exact passes_maxPrice (mem_filter_sneakers.mp hr).2

/-- Witness for C3 at a concrete input: record `c` survives `min_price = 0`
and its price is present and nonnegative. -/
theorem empty_string_vs_zero_price_witness :
    ∃ v, exC.lastSale = some v ∧ (0 : ℚ) ≤ v :=
  empty_string_vs_zero_price.2.2.2.2.2.1 [exC] none none none none none none exC
    (by decide)

/-- C10: `load_mock` never propagates an error: every failing outcome of the
read/parse yields the empty sequence, and a successful outcome yields the
parsed sequence unchanged (in source order). -/
theorem load_mock_swallows_errors :
    (∀ e, load_mock (Except.error e) = []) ∧
      ∀ data, load_mock (Except.ok data) = data :=
  ⟨fun _ => rfl, fun _ => rfl⟩

/-! ## Case-insensitivity helpers (C9) -/

/-- Lowering after uppering is lowering (code-point level). -/
theorem lowerChar_upperChar (c : Nat) : lowerChar (upperChar c) = lowerChar c := by
  unfold lowerChar upperChar
  split_ifs <;> omega

/-- Lowering is idempotent (code-point level). -/
theorem lowerChar_lowerChar (c : Nat) : lowerChar (lowerChar c) = lowerChar c := by
  unfold lowerChar
  split_ifs <;> omega

/-- `s.upper().lower() = s.lower()`. -/
theorem lowerStr_upperStr (s : Str) : lowerStr (upperStr s) = lowerStr s := by
  simp only [lowerStr, upperStr, List.map_map]
  exact List.map_congr_left fun c _ => lowerChar_upperChar c

/-- `s.lower().lower() = s.lower()`. -/
theorem lowerStr_lowerStr (s : Str) : lowerStr (lowerStr s) = lowerStr s := by
  simp only [lowerStr, List.map_map]
  exact List.map_congr_left fun c _ => lowerChar_lowerChar c

/-- Uppering preserves emptiness. -/
theorem isEmpty_upperStr (s : Str) : (upperStr s).isEmpty = s.isEmpty := by
  cases s <;> rfl

/-- Lowering preserves emptiness. -/
theorem isEmpty_lowerStr (s : Str) : (lowerStr s).isEmpty = s.isEmpty := by
  cases s <;> rfl

/-- C9: the `q` criterion is case-insensitive: filtering with the uppercase of
a string gives the same output as filtering with its lowercase, whatever the
other criteria; `filter(records, q="AIR")` equals `filter(records, q="air")`
as the instance `s = "air"`. -/
theorem q_case_insensitive (items : List Sneaker) (s : Str) (brand model : Option Str)
    (mn mx : Option ℚ) (rf rt : Option Str) :
    filter_sneakers items (some (upperStr s)) brand model mn mx rf rt =
      filter_sneakers items (some (lowerStr s)) brand model mn mx rf rt := by
  unfold filter_sneakers
  apply List.filter_congr
  intro it _
  simp only [passesFilter]
  have hq : okQ it (some (upperStr s)) = okQ it (some (lowerStr s)) := by
    simp only [okQ, isEmpty_upperStr, isEmpty_lowerStr, lowerStr_upperStr,
      lowerStr_lowerStr]
  rw [hq]

/-! ## Detail lookup (C8) -/

/-- `findById` yields `none` exactly when no record has the id. -/
theorem findById_eq_none_iff (records : List Sneaker) (sid : Str) :
    findById records sid = none ↔ ∀ r ∈ records, r.id ≠ sid := by
  induction records with
  | nil => simp [findById]
  | cons s rest ih =>
    by_cases h : s.id = sid
    · simp [findById, h]
    · simp [findById, h, ih]

/-- `findById` returns the first match in the sequence. -/
theorem findById_append_first (l1 : List Sneaker) (r : Sneaker) (l2 : List Sneaker)
    (sid : Str) (hid : r.id = sid) (hfirst : ∀ r' ∈ l1, r'.id ≠ sid) :
    findById (l1 ++ r :: l2) sid = some r := by
  induction l1 with
  | nil => simp [findById, hid]
  | cons a t ih =>
    have ha : a.id ≠ sid := hfirst a (List.mem_cons_self a t)
    simp only [List.cons_append, findById, if_neg ha]
    exact ih fun r' hr' => hfirst r' (List.mem_cons_of_mem a hr')

/-- C8: `findById` signals `NotFound` (here `none`, surfaced as the 404)
iff no record has the given id; when a match exists it returns the first
record whose id equals the given id. -/
theorem findById_spec (records : List Sneaker) (sid : Str) :
    (findById records sid = none ↔ ∀ r ∈ records, r.id ≠ sid) ∧
    (∀ l1 r l2, records = l1 ++ r :: l2 → r.id = sid →
      (∀ r' ∈ l1, r'.id ≠ sid) → findById records sid = some r) := by
  refine ⟨findById_eq_none_iff records sid, ?_⟩
  rintro l1 r l2 rfl hid hfirst
  exact findById_append_first l1 r l2 sid hid hfirst

/-- Witness for C8 at concrete inputs: id `"b"` is found (first match past
`a`), id `"c"` is absent from `[a]` and signals `NotFound`. -/
theorem findById_spec_witness :
    findById [exA, exB] [98] = some exB ∧ findById [exA] [99] = none :=
  ⟨(findById_spec [exA, exB] [98]).2 [exA] exB [] rfl (by decide) (by decide),
   (findById_spec [exA] [99]).1.mpr (by decide)⟩

/-! ## Trending with enough tagged records (C7) -/

/-- C7: when at least `limit` records are tagged `"trending"`, `trending`
returns exactly the first `limit` tagged records in original order, and every
returned record is tagged. -/
theorem trending_enough_tagged (records : List Sneaker) (limit : Nat)
    (h : limit ≤ (records.filter isTagged).length) :
    trending records limit = (records.filter isTagged).take limit ∧
      ∀ r ∈ trending records limit, isTagged r = true := by
  have h2 : ¬(records.filter isTagged).length < limit := not_lt.mpr h
  have heq : trending records limit = (records.filter isTagged).take limit := by
    simp only [trending, if_neg h2]
  refine ⟨heq, ?_⟩
  intro r hr
  rw [heq] at hr
  exact (List.mem_filter.mp (List.take_subset _ _ hr)).2

/-- Witness for C7 at a concrete input: the one-record tagged catalog with
`limit = 1`. -/
theorem trending_enough_tagged_witness :
    trending [exB] 1 = ([exB].filter isTagged).take 1 ∧
      ∀ r ∈ trending [exB] 1, isTagged r = true :=
  trending_enough_tagged [exB] 1 (by decide)

/-! ## Trending de-duplication (C1) -/

/-- An untagged record with id `"x"` and lastSale 100. -/
def dupX1 : Sneaker := ⟨[120], [], [], [], none, [], some 100⟩

/-- A second untagged record with the same id `"x"` and lastSale 50. -/
def dupX2 : Sneaker := ⟨[120], [], [], [], none, [], some 50⟩

/-- C1 (refuted by evaluation): on the catalog `[x:100, x:50]` (two records
sharing id `"x"`) with positive limit 3, `trending` returns both records, so
its output does contain two records with the same id: the fill loop checks
ids only against the tagged set and never records the ids it appends, so
first-seen de-duplication fails for untagged records. -/
theorem trending_duplicate_id_eval :
    0 < 3 ∧ trending [dupX1, dupX2] 3 = [dupX1, dupX2] ∧
      dupX1.id = dupX2.id ∧ dupX1 ≠ dupX2 := by decide

/-! ## Trending fill refinement (C4) -/

/-- The fill step as worded by the claim: iterate the sorted sequence,
appending records whose id is not among the tagged ids, while the accumulated
list has not yet reached `limit`, until the sequence is exhausted. -/
def fillSpec (limit : Nat) (ids : List Str) : List Sneaker → List Sneaker → List Sneaker
  | acc, [] => acc
  | acc, item :: rest =>
    if acc.length < limit then
      fillSpec limit ids (if ids.contains item.id then acc else acc ++ [item]) rest
    else acc

/-- `fillSpec` stops as soon as the accumulator has reached `limit`. -/
theorem fillSpec_of_le {limit : Nat} {ids : List Str} {acc : List Sneaker}
    (l : List Sneaker) (h : limit ≤ acc.length) : fillSpec limit ids acc l = acc := by
  cases l with
  | nil => rfl
  | cons x rest => simp [fillSpec, Nat.not_lt.mpr h]

/-- The code's fill loop (length check after the conditional append) agrees
with the claim's description (append while below `limit`) whenever the
accumulator starts below `limit`. -/
theorem fill_eq_fillSpec {limit : Nat} {ids : List Str} :
    ∀ (l acc : List Sneaker), acc.length < limit →
      fill limit ids acc l = fillSpec limit ids acc l := by
  intro l
  induction l with
  | nil => intro acc _; rfl
  | cons item rest ih =>
    intro acc h
    simp only [fill, fillSpec, if_pos h]
    by_cases hle : limit ≤ (if ids.contains item.id then acc else acc ++ [item]).length
    · rw [if_pos hle, fillSpec_of_le rest hle]
    · rw [if_neg hle]
      exact ih _ (lt_of_not_le hle)

/-- Filtering the result of one ordered insertion for a fixed key value:
the inserted element lands in front of the equal-key elements already
present, because everything placed before it has a strictly larger key. -/
theorem filter_key_orderedInsert (a : Sneaker) (k : ℚ) :
    ∀ m : List Sneaker,
      (List.orderedInsert byKeyDesc a m).filter (fun x => decide (sortKey x = k)) =
        if sortKey a = k then a :: m.filter (fun x => decide (sortKey x = k))
        else m.filter (fun x => decide (sortKey x = k)) := by
  intro m
  induction m with
  | nil =>
    by_cases hak : sortKey a = k <;>
      simp [List.orderedInsert, List.filter_cons, hak]
  | cons b m' ih =>
    by_cases hab : byKeyDesc a b
    · simp only [List.orderedInsert, if_pos hab]
      by_cases hak : sortKey a = k <;> simp [List.filter_cons, hak]
    · simp only [List.orderedInsert, if_neg hab]
      by_cases hbk : sortKey b = k
      · by_cases hak : sortKey a = k
        · exact absurd (le_of_eq (hbk.trans hak.symm)) hab
        · simp [List.filter_cons, hbk, hak, ih]
      · simp [List.filter_cons, hbk, ih]

/-- Stability of `sortDesc`: for each key value, the records carrying that
key appear in the sorted output in their original catalog order. -/
theorem filter_key_sortDesc (k : ℚ) : ∀ records : List Sneaker,
    (sortDesc records).filter (fun x => decide (sortKey x = k)) =
      records.filter (fun x => decide (sortKey x = k)) := by
  intro records
  induction records with
  | nil => rfl
  | cons a l ih =>
    show (List.orderedInsert byKeyDesc a (sortDesc l)).filter _ = _
    rw [filter_key_orderedInsert a k (sortDesc l), ih]
    by_cases hak : sortKey a = k <;> simp [List.filter_cons, hak]

/-- C4: when fewer than `limit` records are tagged, `trending` equals the
claim's described fill: iterate the catalog stably sorted by `lastSale`
descending (absent price as 0), appending records whose id is not among the
tagged ids, until `limit` is reached or the sequence ends, then truncate.
`sortDesc` is a permutation of the catalog, is sorted descending by the
absent-as-0 key, and keeps equal-key records (including the absent-as-0 ones)
in original catalog order; and on the example catalog
`trending(catalog, 2) = [b, c]`. -/
theorem trending_fill_by_price :
    (∀ records limit, (records.filter isTagged).length < limit →
      trending records limit =
        (fillSpec limit ((records.filter isTagged).map Sneaker.id)
          (records.filter isTagged) (sortDesc records)).take limit) ∧
    (∀ records : List Sneaker, (sortDesc records).Perm records) ∧
    (∀ records : List Sneaker, (sortDesc records).Pairwise byKeyDesc) ∧
    (∀ records (k : ℚ), (sortDesc records).filter (fun x => decide (sortKey x = k)) =
      records.filter (fun x => decide (sortKey x = k))) ∧
    trending exampleCatalog 2 = [exB, exC] := by
  refine ⟨?_, ?_, ?_, ?_, by decide⟩
  · intro records limit h
    simp only [trending, if_pos h]
    exact congrArg (List.take limit) (fill_eq_fillSpec _ _ h)
  · exact fun records => List.perm_insertionSort byKeyDesc records
  · exact fun records => List.sorted_insertionSort byKeyDesc records
  · exact fun records k => filter_key_sortDesc k records

/-- Witness for C4 at a concrete input: the example catalog with `limit = 2`
has only one tagged record, so the fill applies. -/
theorem trending_fill_by_price_witness :
    trending exampleCatalog 2 =
      (fillSpec 2 ((exampleCatalog.filter isTagged).map Sneaker.id)
        (exampleCatalog.filter isTagged) (sortDesc exampleCatalog)).take 2 :=
  trending_fill_by_price.1 exampleCatalog 2 (by decide)
